import Mathlib

/-!
Shallow embedding of the warpos task-orchestration core
(`src/profileStore.ts`, `src/templateStore.ts`, `src/instanceStore.ts`,
`src/taskExecutor.ts`, `src/schema.ts`) together with proofs about the
properties of profile resolution, template loading, instance generation,
variable substitution and two-phase plan execution.

Conventions of the embedding:
* JavaScript objects whose keys matter (instance `inputs`, stores backed
  by a directory of files) are modelled as association lists in insertion
  order; lookup takes the first matching key, as JS property access does
  for objects without duplicate keys.
* Asynchronous filesystem I/O is modelled by passing the store value
  explicitly; a successful `writeFile` becomes a functional update.
* `readFile` failing with ENOENT is modelled by a lookup returning `none`;
  callers that catch ENOENT map it to a domain error, callers that do not
  surface a distinct storage-level error constructor.
* Recursive traversals that TypeScript runs directly are given an explicit
  fuel argument so that every definition is structurally recursive and
  kernel-computable; the fuel chosen for the entry points is proved
  sufficient, so exhaustion is unreachable there.
-/

namespace Warpos

/-! ## Association-list helpers (JS object / directory access) -/

/-- First value stored under key `k`, like JS property access on an object. -/
def assocLookup {α : Type} (l : List (String × α)) (k : String) : Option α :=
  (l.find? (fun e => e.1 == k)).map (·.2)

/-- Does the object have key `k`? -/
def containsKey {α : Type} (l : List (String × α)) (k : String) : Bool :=
  l.any (fun e => e.1 == k)

/-! ## JSON values

Instance `inputs` values and schema-validated data.  Numbers are modelled
as integers (no claim depends on float formatting).  Compound values
(objects / arrays) are kept opaque: the code only branches on `typeof`
(distinguishing arrays from plain objects) and renders them with
`JSON.stringify(value, null, 2)`, so the embedding records whether the
value is an array plus its serialized rendering. -/

inductive Json where
  | str (s : String)
  | num (n : Int)
  | bool (b : Bool)
  | null
  | compound (isArray : Bool) (serialized : String)
deriving Repr, BEq, DecidableEq

/-! ## String machinery for placeholder substitution

`String.prototype.replaceAll` with a non-empty literal pattern: scan left
to right, replace each occurrence, continue scanning after the inserted
replacement (the replacement itself is not rescanned in the same call).
Implemented on character lists with a fuel argument equal to the input
length so that it is structurally recursive; fuel 0 returns the rest
unchanged, and one character is consumed per step, so the entry point's
fuel is always enough. -/

def replaceAllAux (pat rep : List Char) : Nat → List Char → List Char
  | _, [] => []
  | 0, l => l
  | fuel + 1, c :: cs =>
    if pat ≠ [] ∧ pat.isPrefixOf (c :: cs) then
      rep ++ replaceAllAux pat rep fuel ((c :: cs).drop pat.length)
    else
      c :: replaceAllAux pat rep fuel cs

/-- JS `s.replaceAll(pat, rep)` for a literal (non-regex) pattern. -/
def replaceAll (s pat rep : String) : String :=
  String.mk (replaceAllAux pat.data rep.data s.data.length s.data)

/-- Does `pat` occur as a contiguous sublist of the argument? -/
def occursIn (pat : List Char) : List Char → Bool
  | [] => pat.isEmpty
  | c :: cs => pat.isPrefixOf (c :: cs) || occursIn pat cs

/-- Does `pat` occur as a substring of `s`? -/
def occursStr (pat s : String) : Bool :=
  occursIn pat.data s.data

/-- JS `String.prototype.trim`: drop whitespace from both ends
(kernel-computable counterpart of `String.trim`). -/
def strTrim (s : String) : String :=
  String.mk (((s.data.dropWhile Char.isWhitespace).reverse.dropWhile Char.isWhitespace).reverse)

/-- JS single-character `split`: `p.split('/')` and friends. -/
def splitOnChar (sep : Char) : List Char → List (List Char)
  | [] => [[]]
  | c :: cs =>
    match splitOnChar sep cs with
    | [] => [[]]
    | g :: gs => if c = sep then [] :: g :: gs else (c :: g) :: gs

/-! ## Variable substitution (`taskExecutor.ts`, `substituteVariables` /
`deriveConvenienceVariables`)

`substituteVariables(template, inputs)` iterates over
`Object.entries({...inputs, ...derivedVars})` and performs one
`replaceAll` per variable on the intermediate string. -/

/-- Rendering of one value as replacement text: strings verbatim, numbers
and booleans via `String(value)`, `null`/`undefined` as the empty string,
compound values via their `JSON.stringify(value, null, 2)` serialization
(carried opaquely on `Json.compound`). -/
def renderValue : Json → String
  | .str s => s
  | .num n => toString n
  | .bool b => if b then "true" else "false"
  | .null => ""
  | .compound _ s => s

/-- Mirror of `deriveConvenienceVariables`: when `inputs.endpoint_path`
is a string, split it on `/`, keep the segments that are non-empty and
contain neither `:` nor `?`, and bind `resource` to the last one when any
remain. -/
def deriveConvenienceVariables (inputs : List (String × Json)) : List (String × String) :=
  match assocLookup inputs "endpoint_path" with
  | some (.str p) =>
    let segments := (splitOnChar '/' p.data).filter
      (fun s => !s.isEmpty && !s.contains ':' && !s.contains '?')
    match segments.getLast? with
    | some r => [("resource", String.mk r)]
    | none => []
  | _ => []

/-- Mirror of the JS object spread `{...inputs, ...derivedVars}`: keys of
`inputs` keep their position but derived values override them; derived
keys not present in `inputs` are appended in derived order. -/
def spreadMerge (inputs : List (String × Json)) (derived : List (String × String)) :
    List (String × Json) :=
  inputs.map (fun kv =>
    match assocLookup derived kv.1 with
    | some s => (kv.1, Json.str s)
    | none => kv)
  ++ (derived.filter (fun d => !containsKey inputs d.1)).map
      (fun d => (d.1, Json.str d.2))

/-- Entry list of `{...inputs, ...this.deriveConvenienceVariables(inputs)}`. -/
def allVars (inputs : List (String × Json)) : List (String × Json) :=
  spreadMerge inputs (deriveConvenienceVariables inputs)

/-- Mirror of `substituteVariables`: one `replaceAll` of `{key}` per
variable, applied sequentially over the intermediate string. -/
def substituteVariables (template : String) (inputs : List (String × Json)) : String :=
  (allVars inputs).foldl
    (fun result kv => replaceAll result ("\x7b" ++ kv.1 ++ "\x7d") (renderValue kv.2))
    template

/-! ## JSON-Schema fragment (`schema.ts`)

`validateSchema(schema, value)` compiles the schema with Ajv configured
with `allErrors: true` and returns the complete error list.  The claims
exercise only object schemas with `required` and per-property `type`
keywords, so the embedding models exactly that fragment; `valid` of the
TS return value corresponds to the error list being empty. -/

inductive JsonType where
  | string
  | number
  | boolean
  | object
  | array
  | null
  | integer
deriving Repr, DecidableEq

/-- Does a value match a JSON-Schema `type` keyword?  Numbers are
modelled as integers, so `number` and `integer` both accept them. -/
def typeMatches : JsonType → Json → Bool
  | .string, .str _ => true
  | .number, .num _ => true
  | .integer, .num _ => true
  | .boolean, .bool _ => true
  | .object, .compound false _ => true
  | .array, .compound true _ => true
  | .null, .null => true
  | _, _ => false

/-- Object schema fragment: `required` field names and per-property
`type` keywords. -/
structure SchemaDoc where
  required : List String := []
  properties : List (String × JsonType) := []
deriving Repr, DecidableEq

inductive SchemaError where
  | missingRequired (field : String)
  | wrongType (field : String) (expected : JsonType)
deriving Repr, DecidableEq

/-- Mirror of `validateSchema` on the object-schema fragment: with
`allErrors: true`, Ajv reports every missing required field and every
wrongly typed declared property in one pass. -/
def validateSchema (schema : SchemaDoc) (value : List (String × Json)) : List SchemaError :=
  (schema.required.filter (fun f => !containsKey value f)).map .missingRequired
  ++ schema.properties.filterMap (fun ft =>
      match assocLookup value ft.1 with
      | some v => if typeMatches ft.2 v then none else some (.wrongType ft.1 ft.2)
      | none => none)

/-! ## Task templates (`templateStore.ts`)

The template directory is modelled as an association list keyed by the
`(id, version)` pair parsed from the `id@version.yaml` filename.  Stored
documents are already-parsed `TaskTemplate` records; the structural
check of `TASK_TEMPLATE_SCHEMA` on a typed record reduces to its
`minLength` / `minimum` / `minItems` constraints. -/

structure TaskTemplate where
  id : String
  version : Nat
  description : String
  inputs_schema : SchemaDoc
  outputs_schema : SchemaDoc
  steps : List (String × String)
  verification : List (String × String) := []
  domain_profiles_default : List String := []
  mcd_selectors : List String := []
  active : Option Bool := none
  deprecated : Option Bool := none
  deprecated_at : Option String := none
  deprecated_reason : Option String := none
deriving Repr, DecidableEq

/-- Structural validity per `TASK_TEMPLATE_SCHEMA` for an already-typed
record. -/
def templateStructValid (t : TaskTemplate) : Bool :=
  (t.id != "") && decide (1 ≤ t.version) && (t.description != "") && !t.steps.isEmpty

abbrev TemplateStore := List ((String × Nat) × TaskTemplate)

/-- Filename convention `<id>@<version>.yaml`. -/
def templateFilename (tid : String) (v : Nat) : String :=
  tid ++ "@" ++ toString v ++ ".yaml"

/-- Read of the file for `(tid, v)`; `none` is ENOENT. -/
def lookupTemplateFile (store : TemplateStore) (tid : String) (v : Nat) : Option TaskTemplate :=
  (store.find? (fun e => e.1.1 == tid && e.1.2 == v)).map (·.2)

/-- Insertion into a descending-sorted list of version numbers. -/
def insertDesc (v : Nat) : List Nat → List Nat
  | [] => [v]
  | w :: ws => if w ≤ v then v :: w :: ws else w :: insertDesc v ws

/-- Sort version numbers in descending order (`versions.sort((a, b) => b - a)`). -/
def sortDesc (l : List Nat) : List Nat := l.foldr insertDesc []

/-- Mirror of `listTemplateVersions`: all versions on disk for the id,
descending (latest first). -/
def listTemplateVersions (store : TemplateStore) (tid : String) : List Nat :=
  sortDesc (store.filterMap (fun e => if e.1.1 == tid then some e.1.2 else none))

/-- Mirror of `getLatestVersion`: the head of the descending version
list, `none` when the id has no versions. -/
def getLatestVersion (store : TemplateStore) (tid : String) : Option Nat :=
  (listTemplateVersions store tid).head?

inductive TplErr where
  | notFound (id : String)
  | storage (file : String)
  | validation (id : String) (version : Nat)
deriving Repr, DecidableEq

/-- Mirror of `loadTemplate`: `version ?? latest`; no version at all
gives the domain NotFound, but the `readFile` of an explicitly requested
missing version is not guarded, so its ENOENT surfaces as a raw
storage-level error (`TplErr.storage`), not as NotFound. -/
def loadTemplate (store : TemplateStore) (tid : String) (version : Option Nat) :
    Except TplErr TaskTemplate :=
  match version.orElse (fun _ => getLatestVersion store tid) with
  | none => .error (.notFound tid)
  | some v =>
    match lookupTemplateFile store tid v with
    | none => .error (.storage (templateFilename tid v))
    | some t => if templateStructValid t then .ok t else .error (.validation tid v)

/-- Overwrite of the file for `(tid, v)`. -/
def updateTemplateFile (store : TemplateStore) (tid : String) (v : Nat) (t : TaskTemplate) :
    TemplateStore :=
  store.map (fun e => if e.1.1 == tid && e.1.2 == v then (e.1, t) else e)

/-- Record written back by deprecation: `active=false`,
`deprecated=true`, `deprecated_at=now`, and `deprecated_reason` only
when the given reason is non-blank after trimming
(`if (reason && reason.trim().length > 0)`); every other field is
carried over unchanged. -/
def deprecatedRecord (t : TaskTemplate) (reason : Option String) (now : String) : TaskTemplate :=
  { t with
    active := some false
    deprecated := some true
    deprecated_at := some now
    deprecated_reason :=
      match reason with
      | some r => if strTrim r ≠ "" then some r else t.deprecated_reason
      | none => t.deprecated_reason }

/-- Mirror of `deleteTemplate` (soft deprecation): load the exact
version, add the deprecation metadata, and persist the record back to
the same file. -/
def deleteTemplate (store : TemplateStore) (tid : String) (v : Nat)
    (reason : Option String) (now : String) :
    Except TplErr (TemplateStore × (String × Nat × Bool)) :=
  match loadTemplate store tid (some v) with
  | .error e => .error e
  | .ok t => .ok (updateTemplateFile store tid v (deprecatedRecord t reason now), (tid, v, true))

/-! ## Task instances (`instanceStore.ts`) -/

inductive InstStatus where
  | pending
  | prepared
  | executed
  | failed
deriving Repr, DecidableEq

structure TaskInstance where
  instance_id : String
  project_slug : String
  template_id : String
  template_version : Nat
  inputs : List (String × Json)
  mcd_hash : String
  domain_profiles : List String
  created_at : String
  status : Option InstStatus := none
deriving Repr, DecidableEq

/-- Structural validity per `TASK_INSTANCE_SCHEMA` for an already-typed
record. -/
def instanceStructValid (i : TaskInstance) : Bool :=
  (i.instance_id != "") && (i.project_slug != "") && (i.template_id != "")
    && decide (1 ≤ i.template_version) && (i.mcd_hash != "")

/-- Instance directory keyed by `(projectSlug, instanceId)`. -/
abbrev InstanceStore := List ((String × String) × TaskInstance)

inductive GenErr where
  | template (e : TplErr)
  | inputValidation (templateId : String) (version : Nat) (errors : List SchemaError)
  | generatedInvalid
deriving Repr, DecidableEq

/-- Instance record assembled by `generateInstance` before persisting:
locked template reference, the validated inputs, and `status = pending`. -/
def builtInstance (projectSlug templateId : String) (templateVersion : Nat)
    (inputs : List (String × Json)) (mcdHash : String) (domainProfiles : List String)
    (uuid now : String) : TaskInstance :=
  { instance_id := uuid, project_slug := projectSlug, template_id := templateId,
    template_version := templateVersion, inputs := inputs, mcd_hash := mcdHash,
    domain_profiles := domainProfiles, created_at := now, status := some .pending }

/-- Mirror of `generateInstance`: load the exact template (propagating
its errors), validate `inputs` against its `inputs_schema` (complete
error list), build the instance with `status = pending`, check it
against the instance schema, and only then append it to the store.  The
store is returned unchanged on every error path — nothing is persisted
before the final write. -/
def generateInstance (tstore : TemplateStore) (istore : InstanceStore)
    (projectSlug templateId : String) (templateVersion : Nat)
    (inputs : List (String × Json)) (mcdHash : String) (domainProfiles : List String)
    (uuid now : String) : InstanceStore × Except GenErr TaskInstance :=
  match loadTemplate tstore templateId (some templateVersion) with
  | .error e => (istore, .error (.template e))
  | .ok template =>
    if validateSchema template.inputs_schema inputs ≠ [] then
      (istore, .error (.inputValidation templateId templateVersion
        (validateSchema template.inputs_schema inputs)))
    else
      if instanceStructValid (builtInstance projectSlug templateId templateVersion inputs
          mcdHash domainProfiles uuid now) then
        (istore ++ [((projectSlug, uuid), builtInstance projectSlug templateId templateVersion
            inputs mcdHash domainProfiles uuid now)],
          .ok (builtInstance projectSlug templateId templateVersion inputs mcdHash
            domainProfiles uuid now))
      else
        (istore, .error .generatedInvalid)

/-! ## Execution plans (`taskExecutor.ts`, `executeTask`) -/

inductive PlanStatus where
  | pending
  | executing
  | completed
  | failed
deriving Repr, DecidableEq

structure ExecutionPlan where
  plan_id : String
  instance_id : String
  project_slug : String
  template_id : String
  template_version : Nat
  created_at : String
  steps : List (String × String)
  verification : List (String × String)
  domain_framework : Option String := none
  status : PlanStatus
deriving Repr, DecidableEq

/-- Plan directory keyed by plan id (`<planId>.yaml`). -/
abbrev PlanStore := List (String × ExecutionPlan)

inductive ExecErr where
  | state (s : PlanStatus)
  | storage (planId : String)
deriving Repr, DecidableEq

/-- Overwrite of the plan file for `planId`. -/
def updatePlan (store : PlanStore) (planId : String) (p : ExecutionPlan) : PlanStore :=
  store.map (fun e => if e.1 == planId then (e.1, p) else e)

/-- Forward progress measure on plan status:
`pending → executing → {completed | failed}`. -/
def statusRank : PlanStatus → Nat
  | .pending => 0
  | .executing => 1
  | .completed => 2
  | .failed => 2

/-- Mirror of `executeTask`: load the plan (a missing file surfaces the
raw read error), refuse with the StateError unless `status = pending`,
persist `executing`, accumulate one result line per step and per
verification entry, persist `completed`, and return the completed plan.
The two successive `writeFile` calls are the two functional updates; the
loop bodies only push strings and cannot throw, so the catch-branch that
would persist `failed` is unreachable and has no counterpart. -/
def executeTask (store : PlanStore) (planId : String) :
    PlanStore × Except ExecErr (ExecutionPlan × List String) :=
  match assocLookup store planId with
  | none => (store, .error (.storage planId))
  | some plan =>
    if plan.status ≠ .pending then
      (store, .error (.state plan.status))
    else
      let executing := { plan with status := .executing }
      let store₁ := updatePlan store planId executing
      let results :=
        plan.steps.map (fun s => "[Step " ++ s.1 ++ "] " ++ s.2)
        ++ plan.verification.map (fun v => "[Verify " ++ v.1 ++ "] " ++ v.2)
      let completed := { executing with status := .completed }
      (updatePlan store₁ planId completed, .ok (completed, results))

/-! ## Domain profiles (`profileStore.ts`, `resolveProfiles`)

`resolveProfiles` performs a depth-first traversal over `inherits`
relations with a *visiting* set (the current DFS stack) for cycle
detection and a *visited* set for diamond collapse, emitting each
profile in post-order.  The traversal is embedded as one fused worklist
function with an explicit fuel argument (one unit per worklist element
processed, whether skipped or expanded); `profileFuel` is the initial
potential of the traversal and is proved sufficient, so the
`fuelExhausted` marker is unreachable from `resolveProfiles`. -/

structure ProfileRelation where
  target : String
  type : String
deriving Repr, DecidableEq

/-- Profile document restricted to the fields `resolveProfiles`
inspects: the optional description and the `relations` edge list (the
observation-group tree takes no part in resolution). -/
structure Profile where
  description : Option String := none
  relations : List ProfileRelation := []
deriving Repr, DecidableEq

/-- Result of `loadProfile` as far as resolution is concerned. -/
structure ResolvedProfile where
  id : String
  profile : Profile
deriving Repr, DecidableEq

/-- Profile directory keyed by the slash-separated profile id. -/
abbrev ProfileStore := List (String × Profile)

/-- Mirror of `loadProfile`'s lookup; `none` is the ENOENT that
`loadProfile` translates into the domain NotFound. -/
def lookupProfile (store : ProfileStore) (id : String) : Option Profile :=
  (store.find? (fun e => e.1 == id)).map (·.2)

/-- Targets of the `inherits` relations in order; the loop skips
relations of any other kind. -/
def inheritTargets (p : Profile) : List String :=
  (p.relations.filter (fun r => r.type == "inherits")).map (·.target)

/-- The three mutable pieces of `resolveProfiles`' closure state. -/
structure DfsState where
  resolved : List ResolvedProfile
  visiting : List String
  visited : List String
deriving Repr, DecidableEq

inductive ProfileErr where
  | cycle (id : String)
  | notFound (id : String)
  | fuelExhausted
deriving Repr, DecidableEq

/-- One fused worklist traversal: `visitMany store fuel st l` processes
the ids of `l` in order like the chained `await visit(...)` calls: a
visited id is skipped silently (diamond collapse), a visiting id raises
the CycleError naming it, a missing id raises NotFound, and otherwise
the id's inherits targets are visited first and the profile is pushed in
post-order (`visiting.delete(id); visited.add(id); resolved.push(p)`). -/
def visitMany (store : ProfileStore) : Nat → DfsState → List String → Except ProfileErr DfsState
  | _, st, [] => .ok st
  | 0, _, _ :: _ => .error .fuelExhausted
  | fuel + 1, st, id :: rest =>
    if st.visited.contains id then
      visitMany store fuel st rest
    else if st.visiting.contains id then
      .error (.cycle id)
    else
      match lookupProfile store id with
      | none => .error (.notFound id)
      | some p =>
        match visitMany store fuel { st with visiting := id :: st.visiting }
            (inheritTargets p) with
        | .error e => .error e
        | .ok st₁ =>
          visitMany store fuel
            { resolved := st₁.resolved ++ [{ id := id, profile := p }],
              visiting := st₁.visiting.erase id,
              visited := id :: st₁.visited } rest

/-- Fuel for the whole traversal: one unit per entry id plus one unit
per store entry and per inherits edge. -/
def profileFuel (store : ProfileStore) (entries : List String) : Nat :=
  entries.length + (store.map (fun e => 1 + (inheritTargets e.2).length)).sum

/-- Mirror of `resolveProfiles`: run the DFS from the entry ids in order
over empty initial state and return the accumulated post-order list. -/
def resolveProfiles (store : ProfileStore) (entries : List String) :
    Except ProfileErr (List ResolvedProfile) :=
  (visitMany store (profileFuel store entries) ⟨[], [], []⟩ entries).map (·.resolved)

/-! Specification vocabulary for the profile graph. -/

/-- One `inherits` edge of the graph held in `store`. -/
def ProfileEdge (store : ProfileStore) (a b : String) : Prop :=
  ∃ p, lookupProfile store a = some p ∧ b ∈ inheritTargets p

/-- Reachability along one or more `inherits` edges. -/
def ProfileReaches (store : ProfileStore) : String → String → Prop :=
  Relation.TransGen (ProfileEdge store)

/-- Every inherits target of every stored profile is itself stored. -/
def StoreClosedB (store : ProfileStore) : Bool :=
  store.all (fun e => (inheritTargets e.2).all (fun t => (lookupProfile store t).isSome))

/-- Acyclicity witness: the rank strictly decreases along every inherits
edge of every stored profile (such a rank exists exactly when the finite
graph is acyclic). -/
def RankDecreasingB (store : ProfileStore) (rank : String → Nat) : Bool :=
  store.all (fun e => (inheritTargets e.2).all (fun t => rank t < rank e.1))

/-- Ancestors-before-descendants over the reversed emission list: each
profile's inherits targets all appear among the ids emitted strictly
before it. -/
def AncestorsFirstRev : List ResolvedProfile → Prop
  | [] => True
  | p :: rest => (∀ t ∈ inheritTargets p.profile, t ∈ rest.map (·.id)) ∧ AncestorsFirstRev rest

/-- Traversal invariant tying the DFS state together: *visited* is
exactly the set of emitted ids, emission is duplicate-free and
ancestors-first, emitted profiles are the stored ones, and the stack is
duplicate-free and disjoint from *visited*. -/
structure GoodState (store : ProfileStore) (st : DfsState) : Prop where
  visitedEq : ∀ x, x ∈ st.visited ↔ x ∈ st.resolved.map (·.id)
  nodupRes : (st.resolved.map (·.id)).Nodup
  ordered : AncestorsFirstRev st.resolved.reverse
  lookupRes : ∀ r ∈ st.resolved, lookupProfile store r.id = some r.profile
  disj : ∀ x ∈ st.visiting, x ∉ st.visited
  nodupVisiting : st.visiting.Nodup

/-- Remaining potential: store entries neither visited nor on the stack,
each weighted by one plus its edge count. -/
def storeWeight (store : ProfileStore) (st : DfsState) : Nat :=
  ((store.filter (fun e => !st.visited.contains e.1 && !st.visiting.contains e.1)).map
    (fun e => 1 + (inheritTargets e.2).length)).sum

/-- Shared concrete diamond graph: `a` inherits `b, c`; `b` and `c` both
inherit `d`. -/
def diamondStore : ProfileStore :=
  [("a", { relations := [{ target := "b", type := "inherits" },
                         { target := "c", type := "inherits" }] }),
   ("b", { relations := [{ target := "d", type := "inherits" }] }),
   ("c", { relations := [{ target := "d", type := "inherits" }] }),
   ("d", {})]

/-- Shared concrete two-cycle graph: `a` and `b` inherit each other. -/
def cycleStore : ProfileStore :=
  [("a", { relations := [{ target := "b", type := "inherits" }] }),
   ("b", { relations := [{ target := "a", type := "inherits" }] })]

/-- Shared concrete template for witnesses and counterexamples. -/
def sampleTemplate : TaskTemplate :=
  { id := "t", version := 1, description := "d",
    inputs_schema := {}, outputs_schema := {},
    steps := [("s1", "Create {name}")] }

/-- Shared concrete template whose input schema requires `a` and `b` and
types `a` and `c` as strings. -/
def sampleTemplateReq : TaskTemplate :=
  { id := "t2", version := 1, description := "d",
    inputs_schema := { required := ["a", "b"], properties := [("a", .string), ("c", .string)] },
    outputs_schema := {}, steps := [("s1", "i")] }

/-- Shared concrete pending plan for witnesses. -/
def samplePlan : ExecutionPlan :=
  { plan_id := "p1", instance_id := "i1", project_slug := "proj",
    template_id := "t", template_version := 1, created_at := "ts",
    steps := [("s1", "Create todo.txt")], verification := [],
    status := .pending }

/-! ## Lemmas about the profile DFS -/

theorem mem_of_contains {l : List String} {a : String} (h : l.contains a = true) : a ∈ l := by
  simpa using h

theorem not_mem_of_not_contains {l : List String} {a : String}
    (h : ¬ l.contains a = true) : a ∉ l := by
  simpa using h

theorem visitMany_post (store : ProfileStore) :
    ∀ fuel (st : DfsState) (l : List String) (st' : DfsState),
      visitMany store fuel st l = .ok st' →
      st'.visiting = st.visiting ∧
      (∃ new, st'.resolved = st.resolved ++ new) ∧
      (∀ x ∈ st.visited, x ∈ st'.visited) ∧
      (∀ x ∈ st'.visited, x ∈ st.visited ∨ x ∉ st.visiting) ∧
      (∀ x ∈ l, x ∈ st'.visited) := by
  intro fuel
  induction fuel with
  | zero =>
    intro st l st' h
    cases l with
    | nil =>
      cases h
      exact ⟨rfl, ⟨[], by simp⟩, fun x hx => hx, fun x hx => Or.inl hx, by simp⟩
    | cons a as => cases h
  | succ fuel ih =>
    intro st l st' h
    cases l with
    | nil =>
      cases h
      exact ⟨rfl, ⟨[], by simp⟩, fun x hx => hx, fun x hx => Or.inl hx, by simp⟩
    | cons id rest =>
      simp only [visitMany] at h
      by_cases hv : st.visited.contains id = true
      · rw [if_pos hv] at h
        obtain ⟨h1, h2, h3, h4, h5⟩ := ih st rest st' h
        refine ⟨h1, h2, h3, h4, ?_⟩
        intro x hx
        rcases List.mem_cons.mp hx with rfl | hx'
        · exact h3 x (mem_of_contains hv)
        · exact h5 x hx'
      · rw [if_neg hv] at h
        by_cases hg : st.visiting.contains id = true
        · rw [if_pos hg] at h
          cases h
        · rw [if_neg hg] at h
          split at h
          · cases h
          · rename_i p hlk
            split at h
            · cases h
            · rename_i st₁ hc
              obtain ⟨c1, c2, c3, c4, c5⟩ := ih _ _ _ hc
              obtain ⟨d1, d2, d3, d4, d5⟩ := ih _ _ _ h
              have hid_ng : id ∉ st.visiting := not_mem_of_not_contains hg
              have hvis₂ : (st₁.visiting.erase id) = st.visiting := by
                rw [c1]
                exact List.erase_cons_head id st.visiting
              refine ⟨?_, ?_, ?_, ?_, ?_⟩
              · rw [d1]
                exact hvis₂
              · obtain ⟨new₂, hnew₂⟩ := d2
                obtain ⟨new₁, hnew₁⟩ := c2
                refine ⟨new₁ ++ [{ id := id, profile := p }] ++ new₂, ?_⟩
                rw [hnew₂]
                simp only []
                rw [hnew₁]
                simp [List.append_assoc]
              · intro x hx
                exact d3 x (List.mem_cons_of_mem id (c3 x hx))
              · intro x hx
                rcases d4 x hx with hx₂ | hx₂
                · rcases List.mem_cons.mp hx₂ with rfl | hx₃
                  · exact Or.inr hid_ng
                  · rcases c4 x hx₃ with hx₄ | hx₄
                    · exact Or.inl hx₄
                    · exact Or.inr (fun hmem => hx₄ (List.mem_cons_of_mem id hmem))
                · rw [hvis₂] at hx₂
                  exact Or.inr hx₂
              · intro x hx
                rcases List.mem_cons.mp hx with rfl | hx'
                · exact d3 x (List.mem_cons_self x st₁.visited)
                · exact d5 x hx'

theorem visitMany_good (store : ProfileStore) :
    ∀ fuel (st : DfsState) (l : List String) (st' : DfsState),
      GoodState store st → visitMany store fuel st l = .ok st' → GoodState store st' := by
  intro fuel
  induction fuel with
  | zero =>
    intro st l st' hgs h
    cases l with
    | nil => cases h; exact hgs
    | cons a as => cases h
  | succ fuel ih =>
    intro st l st' hgs h
    cases l with
    | nil => cases h; exact hgs
    | cons id rest =>
      simp only [visitMany] at h
      by_cases hv : st.visited.contains id = true
      · rw [if_pos hv] at h
        exact ih st rest st' hgs h
      · rw [if_neg hv] at h
        by_cases hg : st.visiting.contains id = true
        · rw [if_pos hg] at h
          cases h
        · rw [if_neg hg] at h
          split at h
          · cases h
          · rename_i p hlk
            split at h
            · cases h
            · rename_i st₁ hc
              have hid_nv : id ∉ st.visited := not_mem_of_not_contains hv
              have hid_ng : id ∉ st.visiting := not_mem_of_not_contains hg
              have hgs' : GoodState store { st with visiting := id :: st.visiting } := by
                refine ⟨hgs.visitedEq, hgs.nodupRes, hgs.ordered, hgs.lookupRes, ?_, ?_⟩
                · intro x hx
                  rcases List.mem_cons.mp hx with rfl | hx'
                  · exact hid_nv
                  · exact hgs.disj x hx'
                · exact List.nodup_cons.mpr ⟨hid_ng, hgs.nodupVisiting⟩
              have hgs₁ := ih _ _ _ hgs' hc
              obtain ⟨c1, c2, c3, c4, c5⟩ := visitMany_post store fuel _ _ _ hc
              have hid_nv₁ : id ∉ st₁.visited := by
                intro hmem
                rcases c4 id hmem with hx | hx
                · exact hid_nv hx
                · exact hx (List.mem_cons_self id st.visiting)
              have hid_nres₁ : id ∉ st₁.resolved.map (·.id) := by
                intro hmem
                exact hid_nv₁ ((hgs₁.visitedEq id).mpr hmem)
              have hvis₂ : st₁.visiting.erase id = st.visiting := by
                rw [c1]
                exact List.erase_cons_head id st.visiting
              have hgs₂ : GoodState store
                  { resolved := st₁.resolved ++ [{ id := id, profile := p }],
                    visiting := st₁.visiting.erase id,
                    visited := id :: st₁.visited } := by
                refine ⟨?_, ?_, ?_, ?_, ?_, ?_⟩
                · intro x
                  constructor
                  · intro hx
                    rcases List.mem_cons.mp hx with rfl | hx'
                    · simp
                    · simp only [List.map_append, List.mem_append]
                      exact Or.inl ((hgs₁.visitedEq x).mp hx')
                  · intro hx
                    simp only [List.map_append, List.map_cons, List.map_nil,
                      List.mem_append, List.mem_singleton] at hx
                    rcases hx with hx' | hx'
                    · exact List.mem_cons_of_mem id ((hgs₁.visitedEq x).mpr hx')
                    · rw [hx']
                      exact List.mem_cons_self id st₁.visited
                · simp only [List.map_append, List.map_cons, List.map_nil]
                  rw [List.nodup_append]
                  refine ⟨hgs₁.nodupRes, List.nodup_singleton id, ?_⟩
                  intro a ha ha'
                  rw [List.mem_singleton] at ha'
                  rw [ha'] at ha
                  exact hid_nres₁ ha
                · simp only [List.reverse_append, List.reverse_cons, List.reverse_nil,
                    List.nil_append, List.singleton_append]
                  refine ⟨?_, hgs₁.ordered⟩
                  intro t ht
                  have htv : t ∈ st₁.visited := c5 t ht
                  have htr : t ∈ st₁.resolved.map (·.id) := (hgs₁.visitedEq t).mp htv
                  rw [List.map_reverse, List.mem_reverse]
                  exact htr
                · intro r hr
                  rcases List.mem_append.mp hr with hr' | hr'
                  · exact hgs₁.lookupRes r hr'
                  · rw [List.mem_singleton] at hr'
                    rw [hr']
                    exact hlk
                · intro x hx
                  rw [hvis₂] at hx
                  intro hmem
                  rcases List.mem_cons.mp hmem with rfl | hmem'
                  · exact hid_ng hx
                  · rcases c4 x hmem' with hx₂ | hx₂
                    · exact hgs.disj x hx hx₂
                    · exact hx₂ (List.mem_cons_of_mem id hx)
                · rw [hvis₂]
                  exact hgs.nodupVisiting
              exact ih _ _ _ hgs₂ h

theorem storeWeight_cons (e : String × Profile) (tl : ProfileStore) (st : DfsState) :
    storeWeight (e :: tl) st =
      (if !st.visited.contains e.1 && !st.visiting.contains e.1
        then 1 + (inheritTargets e.2).length else 0) + storeWeight tl st := by
  unfold storeWeight
  rw [List.filter_cons]
  by_cases hc : (!st.visited.contains e.1 && !st.visiting.contains e.1) = true
  · rw [if_pos hc, if_pos hc, List.map_cons, List.sum_cons]
  · rw [if_neg hc, if_neg hc, Nat.zero_add]

theorem storeWeight_mono (store : ProfileStore) (st₁ st₂ : DfsState)
    (h : ∀ x, (x ∈ st₁.visited ∨ x ∈ st₁.visiting) → (x ∈ st₂.visited ∨ x ∈ st₂.visiting)) :
    storeWeight store st₂ ≤ storeWeight store st₁ := by
  unfold storeWeight
  refine List.Sublist.sum_le_sum ?_ (fun a _ => Nat.zero_le a)
  refine List.Sublist.map _ ?_
  refine List.monotone_filter_right store ?_
  intro e he
  simp only [Bool.and_eq_true, Bool.not_eq_true'] at he ⊢
  have he' : e.1 ∉ st₂.visited ∧ e.1 ∉ st₂.visiting := by
    constructor <;> intro hm
    · rw [(by simpa using hm : st₂.visited.contains e.1 = true)] at he
      exact Bool.noConfusion he.1
    · rw [(by simpa using hm : st₂.visiting.contains e.1 = true)] at he
      exact Bool.noConfusion he.2
  constructor
  · by_cases hb : st₁.visited.contains e.1 = true
    · exact absurd (h e.1 (Or.inl (mem_of_contains hb))) (fun hx => hx.elim he'.1 he'.2)
    · exact Bool.of_not_eq_true hb
  · by_cases hb : st₁.visiting.contains e.1 = true
    · exact absurd (h e.1 (Or.inr (mem_of_contains hb))) (fun hx => hx.elim he'.1 he'.2)
    · exact Bool.of_not_eq_true hb

theorem storeWeight_visiting_cons (st : DfsState) (id : String) (p : Profile)
    (hnv : id ∉ st.visited) (hng : id ∉ st.visiting) :
    ∀ store : ProfileStore, lookupProfile store id = some p →
      storeWeight store { st with visiting := id :: st.visiting } + 1 + (inheritTargets p).length
        ≤ storeWeight store st := by
  intro store
  induction store with
  | nil => intro h; simp [lookupProfile] at h
  | cons e tl ih =>
    intro hlk
    rw [storeWeight_cons, storeWeight_cons]
    have hsets : ∀ x, (x ∈ st.visited ∨ x ∈ st.visiting) →
        (x ∈ ({ st with visiting := id :: st.visiting } : DfsState).visited ∨
          x ∈ ({ st with visiting := id :: st.visiting } : DfsState).visiting) := by
      intro x hx
      rcases hx with hx | hx
      · exact Or.inl hx
      · exact Or.inr (List.mem_cons_of_mem id hx)
    by_cases he : (e.1 == id) = true
    · have heid : e.1 = id := by simpa using he
      have hp : e.2 = p := by
        unfold lookupProfile at hlk
        rw [@List.find?_cons_of_pos _ (fun x => x.1 == id) e tl he] at hlk
        simpa using hlk
      have hm := storeWeight_mono tl st { st with visiting := id :: st.visiting } hsets
      have cond_st : (!st.visited.contains e.1 && !st.visiting.contains e.1) = true := by
        rw [heid]
        simp [hnv, hng]
      have cond_st' : (!({ st with visiting := id :: st.visiting } : DfsState).visited.contains e.1
          && !({ st with visiting := id :: st.visiting } : DfsState).visiting.contains e.1)
          = false := by
        rw [heid]
        simp
      rw [cond_st, cond_st', hp]
      simp only [eq_self_iff_true, if_true, Bool.false_eq_true, if_false]
      omega
    · have he' : (id :: st.visiting).contains e.1 = st.visiting.contains e.1 := by
        have heb : (e.1 == id) = false := Bool.of_not_eq_true he
        simp only [List.contains_cons, heb, Bool.false_or]
      have hlk' : lookupProfile tl id = some p := by
        unfold lookupProfile at hlk ⊢
        rw [@List.find?_cons_of_neg _ (fun x => x.1 == id) e tl he] at hlk
        exact hlk
      have := ih hlk'
      simp only [he']
      omega

theorem visitMany_no_fuel (store : ProfileStore) :
    ∀ fuel (st : DfsState) (l : List String),
      l.length + storeWeight store st ≤ fuel →
      visitMany store fuel st l ≠ .error .fuelExhausted := by
  intro fuel
  induction fuel with
  | zero =>
    intro st l hf
    cases l with
    | nil => intro h; simp [visitMany] at h
    | cons a as =>
      simp only [List.length_cons] at hf
      omega
  | succ fuel ih =>
    intro st l hf
    cases l with
    | nil => intro h; simp [visitMany] at h
    | cons id rest =>
      intro h
      simp only [visitMany] at h
      simp only [List.length_cons] at hf
      by_cases hv : st.visited.contains id = true
      · rw [if_pos hv] at h
        exact ih st rest (by omega) h
      · rw [if_neg hv] at h
        by_cases hg : st.visiting.contains id = true
        · rw [if_pos hg] at h
          simp at h
        · rw [if_neg hg] at h
          have hid_nv : id ∉ st.visited := not_mem_of_not_contains hv
          have hid_ng : id ∉ st.visiting := not_mem_of_not_contains hg
          split at h
          · simp at h
          · rename_i p hlk
            have hw := storeWeight_visiting_cons st id p hid_nv hid_ng store hlk
            split at h
            · rename_i e hc
              have he : e = .fuelExhausted := Except.error.inj h
              rw [he] at hc
              exact ih { st with visiting := id :: st.visiting } (inheritTargets p)
                (by omega) hc
            · rename_i st₁ hc
              obtain ⟨c1, c2, c3, c4, c5⟩ := visitMany_post store fuel _ _ _ hc
              have hvis₂ : st₁.visiting.erase id = st.visiting := by
                rw [c1]
                exact List.erase_cons_head id st.visiting
              have hm := storeWeight_mono store { st with visiting := id :: st.visiting }
                  { resolved := st₁.resolved ++ [{ id := id, profile := p }],
                    visiting := st₁.visiting.erase id,
                    visited := id :: st₁.visited } ?_
              · exact ih _ rest (by omega) h
              · intro x hx
                rcases hx with hx | hx
                · exact Or.inl (List.mem_cons_of_mem id (c3 x hx))
                · rcases List.mem_cons.mp hx with rfl | hx'
                  · exact Or.inl (List.mem_cons_self x st₁.visited)
                  · rw [hvis₂]
                    exact Or.inr hx'

theorem lookup_mem_store {store : ProfileStore} {id : String} {p : Profile}
    (h : lookupProfile store id = some p) : (id, p) ∈ store := by
  unfold lookupProfile at h
  cases hf : store.find? (fun e => e.1 == id) with
  | none => rw [hf] at h; cases h
  | some e =>
    rw [hf] at h
    have hpred := List.find?_some hf
    have heid : e.1 = id := by simpa using hpred
    have hep : e.2 = p := by simpa using h
    have hmem := List.mem_of_find?_eq_some hf
    rw [← heid, ← hep]
    exact hmem

theorem closed_target {store : ProfileStore} (hclosed : StoreClosedB store = true)
    {id : String} {p : Profile} {t : String}
    (hlk : lookupProfile store id = some p) (ht : t ∈ inheritTargets p) :
    (lookupProfile store t).isSome = true := by
  have hmem := lookup_mem_store hlk
  have h1 := List.all_eq_true.mp hclosed _ hmem
  have h2 := List.all_eq_true.mp (by simpa using h1) t ht
  simpa using h2

theorem rank_target {store : ProfileStore} {rank : String → Nat}
    (hrank : RankDecreasingB store rank = true) {id : String} {p : Profile} {t : String}
    (hlk : lookupProfile store id = some p) (ht : t ∈ inheritTargets p) :
    rank t < rank id := by
  have hmem := lookup_mem_store hlk
  have h1 := List.all_eq_true.mp hrank _ hmem
  have h2 : ∀ x ∈ inheritTargets p, rank x < rank id := by simpa using h1
  exact h2 t ht

theorem visitMany_no_notFound (store : ProfileStore) (hclosed : StoreClosedB store = true) :
    ∀ fuel (st : DfsState) (l : List String),
      (∀ x ∈ l, (lookupProfile store x).isSome = true) →
      ∀ y, visitMany store fuel st l ≠ .error (.notFound y) := by
  intro fuel
  induction fuel with
  | zero =>
    intro st l hl y h
    cases l with
    | nil => simp [visitMany] at h
    | cons a as => simp [visitMany] at h
  | succ fuel ih =>
    intro st l hl y h
    cases l with
    | nil => simp [visitMany] at h
    | cons id rest =>
      simp only [visitMany] at h
      by_cases hv : st.visited.contains id = true
      · rw [if_pos hv] at h
        exact ih st rest (fun x hx => hl x (List.mem_cons_of_mem id hx)) y h
      · rw [if_neg hv] at h
        by_cases hg : st.visiting.contains id = true
        · rw [if_pos hg] at h
          simp at h
        · rw [if_neg hg] at h
          split at h
          · rename_i heq
            have := hl id (List.mem_cons_self id rest)
            rw [heq] at this
            simp at this
          · rename_i p hlk
            split at h
            · rename_i e hc
              have he : e = .notFound y := Except.error.inj h
              rw [he] at hc
              exact ih { st with visiting := id :: st.visiting } (inheritTargets p)
                (fun t ht => closed_target hclosed hlk ht) y hc
            · rename_i st₁ hc
              exact ih _ rest (fun x hx => hl x (List.mem_cons_of_mem id hx)) y h

theorem visitMany_no_cycle (store : ProfileStore) (rank : String → Nat)
    (hrank : RankDecreasingB store rank = true) :
    ∀ fuel (st : DfsState) (l : List String),
      (∀ x ∈ l, ∀ v ∈ st.visiting, rank x < rank v) →
      ∀ y, visitMany store fuel st l ≠ .error (.cycle y) := by
  intro fuel
  induction fuel with
  | zero =>
    intro st l hl y h
    cases l with
    | nil => simp [visitMany] at h
    | cons a as => simp [visitMany] at h
  | succ fuel ih =>
    intro st l hl y h
    cases l with
    | nil => simp [visitMany] at h
    | cons id rest =>
      simp only [visitMany] at h
      by_cases hv : st.visited.contains id = true
      · rw [if_pos hv] at h
        exact ih st rest (fun x hx => hl x (List.mem_cons_of_mem id hx)) y h
      · rw [if_neg hv] at h
        by_cases hg : st.visiting.contains id = true
        · exact absurd (hl id (List.mem_cons_self id rest) id (mem_of_contains hg))
            (lt_irrefl (rank id))
        · rw [if_neg hg] at h
          split at h
          · simp at h
          · rename_i p hlk
            split at h
            · rename_i e hc
              have he : e = .cycle y := Except.error.inj h
              rw [he] at hc
              refine ih { st with visiting := id :: st.visiting } (inheritTargets p)
                ?_ y hc
              intro t ht v hv'
              rcases List.mem_cons.mp hv' with rfl | hv''
              · exact rank_target hrank hlk ht
              · exact lt_trans (rank_target hrank hlk ht)
                  (hl id (List.mem_cons_self id rest) v hv'')
            · rename_i st₁ hc
              obtain ⟨c1, c2, c3, c4, c5⟩ := visitMany_post store fuel _ _ _ hc
              have hvis₂ : st₁.visiting.erase id = st.visiting := by
                rw [c1]
                exact List.erase_cons_head id st.visiting
              refine ih _ rest ?_ y h
              intro x hx v hv'
              rw [hvis₂] at hv'
              exact hl x (List.mem_cons_of_mem id hx) v hv'

theorem ancestorsFirstRev_append :
    ∀ (A B : List ResolvedProfile), AncestorsFirstRev (A ++ B) → AncestorsFirstRev B := by
  intro A
  induction A with
  | nil => intro B h; exact h
  | cons a tl ih => intro B h; exact ih B h.2

theorem ancestorsFirst_split (L pre : List ResolvedProfile) (p : ResolvedProfile)
    (suf : List ResolvedProfile) (hord : AncestorsFirstRev L.reverse)
    (hL : L = pre ++ p :: suf) :
    ∀ t ∈ inheritTargets p.profile, t ∈ pre.map (·.id) := by
  have hrev : L.reverse = suf.reverse ++ (p :: pre.reverse) := by
    rw [hL]
    simp [List.reverse_append, List.append_assoc]
  rw [hrev] at hord
  have h2 := ancestorsFirstRev_append suf.reverse (p :: pre.reverse) hord
  intro t ht
  have h3 := h2.1 t ht
  rw [List.map_reverse, List.mem_reverse] at h3
  exact h3

/-! ## Claim theorems: profile resolution -/

/-- C2: on an acyclic profile graph (witnessed by an edge-decreasing
rank) whose inherits targets and entry ids are all stored,
`resolveProfiles` terminates with a result list in which every ancestor
appears strictly before every profile that inherits from it, no
identifier appears twice even when reachable via several paths or from
several entries (global diamond collapse), and every entry id is
emitted. -/
theorem C2_resolve_topological_order (store : ProfileStore) (entries : List String)
    (hacyclic : ∃ rank : String → Nat, RankDecreasingB store rank = true)
    (hclosed : StoreClosedB store = true)
    (hentries : entries.all (fun x => (lookupProfile store x).isSome) = true) :
    ∃ L, resolveProfiles store entries = .ok L ∧
      (L.map (·.id)).Nodup ∧
      (∀ pre p suf, L = pre ++ p :: suf →
        ∀ t ∈ inheritTargets p.profile, t ∈ pre.map (·.id)) ∧
      (∀ x ∈ entries, x ∈ L.map (·.id)) := by
  obtain ⟨rank, hrank⟩ := hacyclic
  have hent : ∀ x ∈ entries, (lookupProfile store x).isSome = true := by
    intro x hx
    have := List.all_eq_true.mp hentries x hx
    simpa using this
  have hinit : GoodState store ⟨[], [], []⟩ := by
    refine ⟨?_, ?_, ?_, ?_, ?_, ?_⟩
    · intro x; simp
    · simp
    · trivial
    · intro r hr; cases hr
    · intro x hx; cases hx
    · exact List.nodup_nil
  have hwinit : storeWeight store ⟨[], [], []⟩
      = (store.map (fun e => 1 + (inheritTargets e.2).length)).sum := by
    unfold storeWeight
    congr 1
    congr 1
    exact List.filter_eq_self.mpr (fun a _ => by simp)
  have hfuel : entries.length + storeWeight store ⟨[], [], []⟩ ≤ profileFuel store entries := by
    rw [hwinit]
    exact Nat.le_refl _
  cases hres : visitMany store (profileFuel store entries) ⟨[], [], []⟩ entries with
  | error e =>
    cases e with
    | cycle y =>
      exact absurd hres (visitMany_no_cycle store rank hrank _ _ _
        (fun x _ v hv => absurd hv (List.not_mem_nil v)) y)
    | notFound y =>
      exact absurd hres (visitMany_no_notFound store hclosed _ _ _ hent y)
    | fuelExhausted =>
      exact absurd hres (visitMany_no_fuel store _ _ _ hfuel)
  | ok stF =>
    have hgood := visitMany_good store _ _ _ _ hinit hres
    obtain ⟨c1, c2, c3, c4, c5⟩ := visitMany_post store _ _ _ _ hres
    refine ⟨stF.resolved, ?_, hgood.nodupRes, ?_, ?_⟩
    · unfold resolveProfiles
      rw [hres]
      rfl
    · intro pre p suf hL
      exact ancestorsFirst_split stF.resolved pre p suf hgood.ordered hL
    · intro x hx
      exact (hgood.visitedEq x).mp (c5 x hx)

/-- Witness for C2 on the diamond graph (`a` inherits `b, c`; `b` and
`c` both inherit `d`). -/
theorem C2_resolve_topological_order_witness :
    ∃ L, resolveProfiles diamondStore ["a"] = .ok L ∧
      (L.map (·.id)).Nodup ∧
      (∀ pre p suf, L = pre ++ p :: suf →
        ∀ t ∈ inheritTargets p.profile, t ∈ pre.map (·.id)) ∧
      (∀ x ∈ ["a"], x ∈ L.map (·.id)) :=
  C2_resolve_topological_order diamondStore ["a"]
    ⟨fun s => if s = "a" then 2 else if s = "d" then 0 else 1, by decide⟩
    (by decide) (by decide)

theorem ordered_edge_lt (store : ProfileStore) (L : List ResolvedProfile)
    (hnodup : (L.map (·.id)).Nodup)
    (hord : AncestorsFirstRev L.reverse)
    (hlookup : ∀ r ∈ L, lookupProfile store r.id = some r.profile)
    {a b : String} (hedge : ProfileEdge store a b) (ha : a ∈ L.map (·.id)) :
    b ∈ L.map (·.id) ∧ (L.map (·.id)).indexOf b < (L.map (·.id)).indexOf a := by
  obtain ⟨r, hrL, hra⟩ := List.mem_map.mp ha
  obtain ⟨pre, suf, hsplit⟩ := List.append_of_mem hrL
  have hb_pre : b ∈ pre.map (·.id) := by
    apply ancestorsFirst_split L pre r suf hord hsplit
    obtain ⟨p, hlk, hbt⟩ := hedge
    have h2 := hlookup r hrL
    rw [hra] at h2
    rw [hlk] at h2
    rw [← Option.some.inj h2]
    exact hbt
  have hids : L.map (·.id) = pre.map (·.id) ++ r.id :: suf.map (·.id) := by
    rw [hsplit]
    simp
  have hnodup' := hids ▸ hnodup
  have hanp : r.id ∉ pre.map (·.id) := by
    rw [List.nodup_append] at hnodup'
    exact fun hm => hnodup'.2.2 hm (List.mem_cons_self _ _)
  constructor
  · rw [hids]
    exact List.mem_append_left _ hb_pre
  · rw [hids, ← hra, List.indexOf_append_of_not_mem hanp, List.indexOf_cons_self,
      List.indexOf_append_of_mem hb_pre]
    have hblt : (pre.map (·.id)).indexOf b < (pre.map (·.id)).length :=
      List.indexOf_lt_length.mpr hb_pre
    omega

theorem reach_mem_ids (store : ProfileStore) (L : List ResolvedProfile)
    (hnodup : (L.map (·.id)).Nodup)
    (hord : AncestorsFirstRev L.reverse)
    (hlookup : ∀ r ∈ L, lookupProfile store r.id = some r.profile)
    {a b : String} (hreach : Relation.ReflTransGen (ProfileEdge store) a b)
    (ha : a ∈ L.map (·.id)) : b ∈ L.map (·.id) := by
  induction hreach with
  | refl => exact ha
  | tail _ he ih => exact (ordered_edge_lt store L hnodup hord hlookup he ih).1

theorem transGen_idx_lt (store : ProfileStore) (L : List ResolvedProfile)
    (hnodup : (L.map (·.id)).Nodup)
    (hord : AncestorsFirstRev L.reverse)
    (hlookup : ∀ r ∈ L, lookupProfile store r.id = some r.profile)
    {a b : String} (h : ProfileReaches store a b) (ha : a ∈ L.map (·.id)) :
    b ∈ L.map (·.id) ∧ (L.map (·.id)).indexOf b < (L.map (·.id)).indexOf a := by
  induction h with
  | single he => exact ordered_edge_lt store L hnodup hord hlookup he ha
  | tail _ he ih =>
    obtain ⟨hb, hlt⟩ := ih
    obtain ⟨hc, hlt2⟩ := ordered_edge_lt store L hnodup hord hlookup he hb
    exact ⟨hc, lt_trans hlt2 hlt⟩

theorem initGoodState (store : ProfileStore) : GoodState store ⟨[], [], []⟩ := by
  refine ⟨?_, ?_, ?_, ?_, ?_, ?_⟩
  · intro x; simp
  · simp
  · trivial
  · intro r hr; cases hr
  · intro x hx; cases hx
  · exact List.nodup_nil

theorem profileFuel_le (store : ProfileStore) (entries : List String) :
    entries.length + storeWeight store ⟨[], [], []⟩ ≤ profileFuel store entries := by
  have hwinit : storeWeight store ⟨[], [], []⟩
      = (store.map (fun e => 1 + (inheritTargets e.2).length)).sum := by
    unfold storeWeight
    congr 1
    congr 1
    exact List.filter_eq_self.mpr (fun a _ => by simp)
  rw [hwinit]
  exact Nat.le_refl _

/-- C3: on a profile graph whose inherits targets and entry ids are all
stored and which contains an inheritance cycle reachable from one of the
entry ids, `resolveProfiles` fails with a CycleError naming the
identifier at which the cycle was detected — and, on every input graph
whatsoever, the traversal terminates (the fuel marker is unreachable
from `resolveProfiles`). -/
theorem C3_resolve_cycle_error (store : ProfileStore) (entries : List String)
    (hclosed : StoreClosedB store = true)
    (hentries : entries.all (fun x => (lookupProfile store x).isSome) = true)
    (hcycle : ∃ e ∈ entries, ∃ c, Relation.ReflTransGen (ProfileEdge store) e c ∧
      ProfileReaches store c c) :
    (∃ id, resolveProfiles store entries = .error (.cycle id)) ∧
    (∀ (s : ProfileStore) (es : List String),
      resolveProfiles s es ≠ .error .fuelExhausted) := by
  have hterm : ∀ (s : ProfileStore) (es : List String),
      resolveProfiles s es ≠ .error .fuelExhausted := by
    intro s es h
    unfold resolveProfiles at h
    cases hres : visitMany s (profileFuel s es) ⟨[], [], []⟩ es with
    | ok st => rw [hres] at h; cases h
    | error e =>
      rw [hres] at h
      have he : e = .fuelExhausted := by
        cases h
        rfl
      rw [he] at hres
      exact visitMany_no_fuel s _ _ _ (profileFuel_le s es) hres
  refine ⟨?_, hterm⟩
  obtain ⟨e0, he0, c, hrtg, htg⟩ := hcycle
  have hent : ∀ x ∈ entries, (lookupProfile store x).isSome = true := by
    intro x hx
    have := List.all_eq_true.mp hentries x hx
    simpa using this
  cases hres : visitMany store (profileFuel store entries) ⟨[], [], []⟩ entries with
  | error e =>
    cases e with
    | cycle y =>
      refine ⟨y, ?_⟩
      unfold resolveProfiles
      rw [hres]
      rfl
    | notFound y =>
      exact absurd hres (visitMany_no_notFound store hclosed _ _ _ hent y)
    | fuelExhausted =>
      exact absurd hres (visitMany_no_fuel store _ _ _ (profileFuel_le store entries))
  | ok stF =>
    exfalso
    have hgood := visitMany_good store _ _ _ _ (initGoodState store) hres
    obtain ⟨c1, c2, c3, c4, c5⟩ := visitMany_post store _ _ _ _ hres
    have he0ids : e0 ∈ stF.resolved.map (·.id) := (hgood.visitedEq e0).mp (c5 e0 he0)
    have hcids : c ∈ stF.resolved.map (·.id) :=
      reach_mem_ids store stF.resolved hgood.nodupRes hgood.ordered hgood.lookupRes hrtg he0ids
    obtain ⟨-, hlt⟩ := transGen_idx_lt store stF.resolved hgood.nodupRes hgood.ordered
      hgood.lookupRes htg hcids
    exact lt_irrefl _ hlt

/-- Witness for C3 on the two-cycle graph (`a` and `b` inherit each
other), entered at `a`. -/
theorem C3_resolve_cycle_error_witness :
    (∃ id, resolveProfiles cycleStore ["a"] = .error (.cycle id)) ∧
    (∀ (s : ProfileStore) (es : List String),
      resolveProfiles s es ≠ .error .fuelExhausted) := by
  have eab : ProfileEdge cycleStore "a" "b" :=
    ⟨{ relations := [{ target := "b", type := "inherits" }] }, rfl, by decide⟩
  have eba : ProfileEdge cycleStore "b" "a" :=
    ⟨{ relations := [{ target := "a", type := "inherits" }] }, rfl, by decide⟩
  exact C3_resolve_cycle_error cycleStore ["a"] (by decide) (by decide)
    ⟨"a", by decide, "a", Relation.ReflTransGen.refl,
      Relation.TransGen.head eab (Relation.TransGen.single eba)⟩

/-! ## Lemmas about `replaceAll` and substitution -/

theorem replaceAllAux_of_not_occurs (pat rep : List Char) :
    ∀ fuel l, occursIn pat l = false → replaceAllAux pat rep fuel l = l := by
  intro fuel
  induction fuel with
  | zero => intro l _; cases l <;> rfl
  | succ n ih =>
    intro l h
    cases l with
    | nil => rfl
    | cons c cs =>
      simp only [occursIn, Bool.or_eq_false_iff] at h
      rw [replaceAllAux, if_neg, ih cs h.2]
      rintro ⟨-, hpre⟩
      rw [h.1] at hpre
      exact absurd hpre (by simp)

theorem replaceAll_of_not_occurs (s pat rep : String) (h : occursStr pat s = false) :
    replaceAll s pat rep = s := by
  unfold replaceAll
  rw [replaceAllAux_of_not_occurs pat.data rep.data s.data.length s.data h]

theorem foldl_replaceAll_no_match (s : String) :
    ∀ vars : List (String × Json),
      (∀ kv ∈ vars, occursStr ("\x7b" ++ kv.1 ++ "\x7d") s = false) →
      vars.foldl
        (fun result kv => replaceAll result ("\x7b" ++ kv.1 ++ "\x7d") (renderValue kv.2)) s = s := by
  intro vars
  induction vars with
  | nil => intro _; rfl
  | cons kv tl ih =>
    intro h
    rw [List.foldl_cons,
      replaceAll_of_not_occurs s _ _ (h kv (List.mem_cons_self kv tl))]
    exact ih (fun x hx => h x (List.mem_cons_of_mem kv hx))

theorem substituteVariables_no_match (s : String) (inputs : List (String × Json))
    (h : ∀ kv ∈ allVars inputs, occursStr ("\x7b" ++ kv.1 ++ "\x7d") s = false) :
    substituteVariables s inputs = s :=
  foldl_replaceAll_no_match s (allVars inputs) h

theorem assocLookup_spreadMerge_singleton (k r : String) :
    ∀ inputs : List (String × Json),
      assocLookup (spreadMerge inputs [(k, r)]) k = some (Json.str r) := by
  intro inputs
  induction inputs with
  | nil => simp [spreadMerge, assocLookup, containsKey]
  | cons kv tl ih =>
    obtain ⟨k₀, v⟩ := kv
    by_cases hk : k₀ = k
    · subst hk
      simp [spreadMerge, assocLookup, List.find?]
    · have hbeq : (k == k₀) = false := beq_eq_false_iff_ne.mpr (Ne.symm hk)
      have hbeq' : (k₀ == k) = false := beq_eq_false_iff_ne.mpr hk
      have hlk : assocLookup [(k, r)] k₀ = none := by
        simp [assocLookup, List.find?, hbeq]
      have hck : containsKey ((k₀, v) :: tl) k = containsKey tl k := by
        simp [containsKey, hbeq']
      simp only [spreadMerge, List.map_cons, List.cons_append, hlk] at ih ⊢
      simp only [assocLookup, List.find?, hbeq'] at ih ⊢
      simp only [List.filter, hck]
      exact ih

/-! ## Lemmas about the descending version sort -/

theorem mem_insertDesc {x v : Nat} : ∀ {l : List Nat}, x ∈ insertDesc v l ↔ x = v ∨ x ∈ l := by
  intro l
  induction l with
  | nil => simp [insertDesc]
  | cons w ws ih =>
    by_cases h : w ≤ v
    · simp [insertDesc, h]
    · simp only [insertDesc, if_neg h, List.mem_cons, ih]
      tauto

theorem sorted_insertDesc {v : Nat} :
    ∀ {l : List Nat}, l.Sorted (· ≥ ·) → (insertDesc v l).Sorted (· ≥ ·) := by
  intro l
  induction l with
  | nil => intro _; simp [insertDesc]
  | cons w ws ih =>
    intro hs
    rw [List.sorted_cons] at hs
    by_cases h : w ≤ v
    · simp only [insertDesc, if_pos h]
      rw [List.sorted_cons]
      refine ⟨?_, ?_⟩
      · intro b hb
        rcases List.mem_cons.mp hb with rfl | hb'
        · exact h
        · exact le_trans (hs.1 b hb') h
      · rw [List.sorted_cons]
        exact hs
    · simp only [insertDesc, if_neg h]
      rw [List.sorted_cons]
      refine ⟨?_, ih hs.2⟩
      intro b hb
      rcases mem_insertDesc.mp hb with rfl | hb'
      · exact le_of_lt (lt_of_not_ge h)
      · exact hs.1 b hb'

theorem sorted_sortDesc (l : List Nat) : (sortDesc l).Sorted (· ≥ ·) := by
  induction l with
  | nil => simp [sortDesc]
  | cons w ws ih => exact sorted_insertDesc ih

/-! ## Lemmas about the template store -/

theorem lookupTemplateFile_updateTemplateFile (tid : String) (v : Nat) (t' : TaskTemplate) :
    ∀ store : TemplateStore, (lookupTemplateFile store tid v).isSome = true →
      lookupTemplateFile (updateTemplateFile store tid v t') tid v = some t' := by
  intro store
  induction store with
  | nil => intro h; simp [lookupTemplateFile] at h
  | cons e tl ih =>
    intro h
    by_cases he : (e.1.1 == tid && e.1.2 == v) = true
    · simp [updateTemplateFile, lookupTemplateFile, List.find?, he]
    · have h' : (lookupTemplateFile tl tid v).isSome = true := by
        simpa [lookupTemplateFile, List.find?, he] using h
      simpa [updateTemplateFile, lookupTemplateFile, List.find?, he] using ih h'

theorem loadTemplate_some (store : TemplateStore) (tid : String) (v : Nat) :
    loadTemplate store tid (some v) =
      match lookupTemplateFile store tid v with
      | none => .error (.storage (templateFilename tid v))
      | some t => if templateStructValid t then .ok t else .error (.validation tid v) := rfl

/-! ## Claim theorems: template store -/

/-- C5 (code bug): `loadTemplate` translates the missing-id case into the
domain NotFound (second conjunct), but when an explicitly requested
version does not exist the unguarded `readFile` surfaces its raw ENOENT
(modelled as `TplErr.storage` carrying the file path), not a domain
NotFound — contradicting the propagation policy that storage errors be
caught at the boundary of every lookup.  First conjunct evaluates the
code at the failing input: only version 1 of `t` is stored and version 2
is requested. -/
theorem C5_missing_version_raw_storage_error :
    loadTemplate [(("t", 1), sampleTemplate)] "t" (some 2)
      = .error (.storage "t@2.yaml") ∧
    loadTemplate ([] : TemplateStore) "t" none = .error (.notFound "t") :=
  ⟨rfl, rfl⟩

/-- C6: loading with no version argument resolves to the highest stored
version: when `v` is the maximum of the stored versions for `tid`,
`load(tid)` and `load(tid, v)` agree. -/
theorem C6_load_defaults_to_max_version (store : TemplateStore) (tid : String) (v : Nat)
    (hmem : v ∈ listTemplateVersions store tid)
    (hmax : ∀ w ∈ listTemplateVersions store tid, w ≤ v) :
    loadTemplate store tid none = loadTemplate store tid (some v) := by
  have hlat : getLatestVersion store tid = some v := by
    unfold getLatestVersion
    cases hl : listTemplateVersions store tid with
    | nil => rw [hl] at hmem; simp at hmem
    | cons h tl =>
      rw [hl] at hmem hmax
      have hh : h ≤ v := hmax h (List.mem_cons_self h tl)
      have hsorted := sorted_sortDesc (store.filterMap
        (fun e => if e.1.1 == tid then some e.1.2 else none))
      rw [show sortDesc (store.filterMap
          (fun e => if e.1.1 == tid then some e.1.2 else none))
          = listTemplateVersions store tid from rfl, hl, List.sorted_cons] at hsorted
      have hvle : v ≤ h := by
        rcases List.mem_cons.mp hmem with rfl | hmem'
        · exact le_refl v
        · exact hsorted.1 v hmem'
      rw [List.head?, le_antisymm hh hvle]
  have h1 : (none : Option Nat).orElse (fun _ => getLatestVersion store tid) = some v := hlat
  have h2 : (some v).orElse (fun _ => getLatestVersion store tid) = some v := rfl
  unfold loadTemplate
  rw [h1, h2]

/-- Witness for C6: versions 1 and 3 of template `t` are stored; the
version-less load equals the explicit load of version 3. -/
theorem C6_load_defaults_to_max_version_witness :
    loadTemplate [(("t", 1), sampleTemplate), (("t", 3), { sampleTemplate with version := 3 })]
        "t" none
      = loadTemplate [(("t", 1), sampleTemplate), (("t", 3), { sampleTemplate with version := 3 })]
        "t" (some 3) :=
  C6_load_defaults_to_max_version
    [(("t", 1), sampleTemplate), (("t", 3), { sampleTemplate with version := 3 })]
    "t" 3 (by decide) (by decide)

/-- C8 (amended): deprecating a stored template version writes back the
same record with only the deprecation metadata changed — `active=false`,
`deprecated=true`, the timestamp, and the reason when the given reason
is non-blank after trimming (`deprecatedRecord` carries every other
field over unchanged via a record update) — and the template remains in
storage under the same `(id, version)` key and is still returned by
`load(id, version)`. -/
theorem C8_deprecate_preserves_template (store : TemplateStore) (tid : String) (v : Nat)
    (reason : Option String) (now : String) (t : TaskTemplate)
    (h : loadTemplate store tid (some v) = .ok t) :
    deleteTemplate store tid v reason now
      = .ok (updateTemplateFile store tid v (deprecatedRecord t reason now), (tid, v, true)) ∧
    lookupTemplateFile (updateTemplateFile store tid v (deprecatedRecord t reason now)) tid v
      = some (deprecatedRecord t reason now) ∧
    loadTemplate (updateTemplateFile store tid v (deprecatedRecord t reason now)) tid (some v)
      = .ok (deprecatedRecord t reason now) := by
  rw [loadTemplate_some] at h
  cases hlk : lookupTemplateFile store tid v with
  | none => rw [hlk] at h; cases h
  | some u =>
    rw [hlk] at h
    have h' : (if templateStructValid u = true then (Except.ok u : Except TplErr TaskTemplate)
        else .error (.validation tid v)) = .ok t := h
    by_cases hval : templateStructValid u = true
    · rw [if_pos hval] at h'
      have hut : u = t := Except.ok.inj h'
      subst hut
      have hsome : (lookupTemplateFile store tid v).isSome = true := by rw [hlk]; rfl
      have hload : loadTemplate store tid (some v) = .ok u := by
        rw [loadTemplate_some, hlk]
        exact if_pos hval
      have hlook := lookupTemplateFile_updateTemplateFile tid v
        (deprecatedRecord u reason now) store hsome
      refine ⟨?_, hlook, ?_⟩
      · unfold deleteTemplate
        rw [hload]
      · rw [loadTemplate_some, hlook]
        have hval' : templateStructValid (deprecatedRecord u reason now)
            = templateStructValid u := rfl
        exact if_pos (hval' ▸ hval)
    · rw [if_neg hval] at h'
      cases h'

/-- Witness for C8 on a one-template store with reason `"obsolete"`. -/
theorem C8_deprecate_preserves_template_witness :
    deleteTemplate [(("t", 1), sampleTemplate)] "t" 1 (some "obsolete") "ts"
      = .ok (updateTemplateFile [(("t", 1), sampleTemplate)] "t" 1
          (deprecatedRecord sampleTemplate (some "obsolete") "ts"), ("t", 1, true)) ∧
    lookupTemplateFile (updateTemplateFile [(("t", 1), sampleTemplate)] "t" 1
        (deprecatedRecord sampleTemplate (some "obsolete") "ts")) "t" 1
      = some (deprecatedRecord sampleTemplate (some "obsolete") "ts") ∧
    loadTemplate (updateTemplateFile [(("t", 1), sampleTemplate)] "t" 1
        (deprecatedRecord sampleTemplate (some "obsolete") "ts")) "t" (some 1)
      = .ok (deprecatedRecord sampleTemplate (some "obsolete") "ts") :=
  C8_deprecate_preserves_template [(("t", 1), sampleTemplate)] "t" 1
    (some "obsolete") "ts" sampleTemplate rfl

/-- C8 counterexample to the claim as stated: a reason is given (`" "`)
but the persisted record's `deprecated_reason` stays unset, because the
code only records reasons that are non-blank after trimming. -/
theorem C8_blank_reason_counterexample :
    deleteTemplate [(("t", 1), sampleTemplate)] "t" 1 (some " ") "ts"
      = .ok ([(("t", 1), deprecatedRecord sampleTemplate (some " ") "ts")], ("t", 1, true)) ∧
    (deprecatedRecord sampleTemplate (some " ") "ts").deprecated_reason = none ∧
    some " " ≠ (none : Option String) :=
  ⟨rfl, by decide, by decide⟩

/-! ## Lemmas about the plan store and `executeTask` -/

theorem updatePlan_updatePlan (pid : String) (a b : ExecutionPlan) :
    ∀ store : PlanStore, updatePlan (updatePlan store pid a) pid b = updatePlan store pid b := by
  intro store
  induction store with
  | nil => rfl
  | cons e tl ih =>
    unfold updatePlan at ih ⊢
    rw [List.map_cons, List.map_cons, List.map_cons]
    by_cases he : (e.1 == pid) = true
    · rw [if_pos he]
      dsimp only
      rw [if_pos he, if_pos he]
      exact congrArg _ ih
    · rw [if_neg he, if_neg he]
      exact congrArg _ ih

theorem assocLookup_updatePlan (pid : String) (p : ExecutionPlan) (q : String) :
    ∀ store : PlanStore,
      assocLookup (updatePlan store pid p) q
        = (store.find? (fun e => e.1 == q)).map (fun e => if e.1 == pid then p else e.2) := by
  intro store
  induction store with
  | nil => rfl
  | cons e tl ih =>
    unfold updatePlan assocLookup at ih ⊢
    rw [List.map_cons]
    by_cases hp : (e.1 == pid) = true
    · rw [if_pos hp]
      by_cases hq : (e.1 == q) = true
      · rw [@List.find?_cons_of_pos _ (fun x => x.1 == q) (e.1, p) _ hq,
          @List.find?_cons_of_pos _ (fun x => x.1 == q) e tl hq]
        simp only [Option.map_some']
        rw [if_pos hp]
      · rw [@List.find?_cons_of_neg _ (fun x => x.1 == q) (e.1, p) _ hq,
          @List.find?_cons_of_neg _ (fun x => x.1 == q) e tl hq]
        exact ih
    · rw [if_neg hp]
      by_cases hq : (e.1 == q) = true
      · rw [@List.find?_cons_of_pos _ (fun x => x.1 == q) e _ hq,
          @List.find?_cons_of_pos _ (fun x => x.1 == q) e tl hq]
        simp only [Option.map_some']
        rw [if_neg hp]
      · rw [@List.find?_cons_of_neg _ (fun x => x.1 == q) e _ hq,
          @List.find?_cons_of_neg _ (fun x => x.1 == q) e tl hq]
        exact ih

theorem executeTask_some (store : PlanStore) (pid : String) (plan : ExecutionPlan)
    (h : assocLookup store pid = some plan) :
    executeTask store pid =
      if plan.status ≠ .pending then (store, .error (.state plan.status))
      else
        (updatePlan (updatePlan store pid { plan with status := .executing }) pid
            { plan with status := .completed },
          .ok ({ plan with status := .completed },
            plan.steps.map (fun s => "[Step " ++ s.1 ++ "] " ++ s.2)
            ++ plan.verification.map (fun v => "[Verify " ++ v.1 ++ "] " ++ v.2))) := by
  unfold executeTask
  rw [h]

/-! ## Lemmas about schema validation -/

theorem mem_validateSchema_missing (schema : SchemaDoc) (inputs : List (String × Json))
    (f : String) (hf : f ∈ schema.required) (hc : containsKey inputs f = false) :
    SchemaError.missingRequired f ∈ validateSchema schema inputs := by
  unfold validateSchema
  apply List.mem_append_left
  apply List.mem_map_of_mem
  rw [List.mem_filter]
  exact ⟨hf, by rw [hc]; rfl⟩

theorem mem_validateSchema_wrongType (schema : SchemaDoc) (inputs : List (String × Json))
    (ft : String × JsonType) (v : Json) (hft : ft ∈ schema.properties)
    (hv : assocLookup inputs ft.1 = some v) (ht : typeMatches ft.2 v = false) :
    SchemaError.wrongType ft.1 ft.2 ∈ validateSchema schema inputs := by
  unfold validateSchema
  apply List.mem_append_right
  rw [List.mem_filterMap]
  exact ⟨ft, hft, by simp [hv, ht]⟩

/-! ## Claim theorems: instance generation -/

/-- C4: when the candidate inputs violate the loaded template's input
schema — at least one required field missing or one declared property
wrongly typed — `generateInstance` fails with the input ValidationError
whose error list contains an entry for every missing required field and
every wrongly typed declared property (Ajv runs with `allErrors: true`),
and the instance store is returned unchanged: nothing is persisted on
that path. -/
theorem C4_generate_rejects_invalid_inputs (tstore : TemplateStore) (istore : InstanceStore)
    (projectSlug templateId : String) (templateVersion : Nat)
    (inputs : List (String × Json)) (mcdHash : String) (domainProfiles : List String)
    (uuid now : String) (tmpl : TaskTemplate)
    (hload : loadTemplate tstore templateId (some templateVersion) = .ok tmpl)
    (hviol : (∃ f ∈ tmpl.inputs_schema.required, containsKey inputs f = false) ∨
      (∃ ft ∈ tmpl.inputs_schema.properties, ∃ v, assocLookup inputs ft.1 = some v ∧
        typeMatches ft.2 v = false)) :
    generateInstance tstore istore projectSlug templateId templateVersion inputs mcdHash
        domainProfiles uuid now
      = (istore, .error (.inputValidation templateId templateVersion
          (validateSchema tmpl.inputs_schema inputs))) ∧
    (∀ f ∈ tmpl.inputs_schema.required, containsKey inputs f = false →
      SchemaError.missingRequired f ∈ validateSchema tmpl.inputs_schema inputs) ∧
    (∀ ft ∈ tmpl.inputs_schema.properties, ∀ v, assocLookup inputs ft.1 = some v →
      typeMatches ft.2 v = false →
      SchemaError.wrongType ft.1 ft.2 ∈ validateSchema tmpl.inputs_schema inputs) := by
  have hne : validateSchema tmpl.inputs_schema inputs ≠ [] := by
    rcases hviol with ⟨f, hf, hc⟩ | ⟨ft, hft, v, hv, ht⟩
    · exact List.ne_nil_of_mem (mem_validateSchema_missing tmpl.inputs_schema inputs f hf hc)
    · exact List.ne_nil_of_mem
        (mem_validateSchema_wrongType tmpl.inputs_schema inputs ft v hft hv ht)
  refine ⟨?_, ?_, ?_⟩
  · unfold generateInstance
    rw [hload]
    show (if validateSchema tmpl.inputs_schema inputs ≠ [] then
        (istore, Except.error (GenErr.inputValidation templateId templateVersion
          (validateSchema tmpl.inputs_schema inputs)))
      else
        if instanceStructValid (builtInstance projectSlug templateId templateVersion inputs
            mcdHash domainProfiles uuid now) = true then
          (istore ++ [((projectSlug, uuid), builtInstance projectSlug templateId templateVersion
              inputs mcdHash domainProfiles uuid now)],
            Except.ok (builtInstance projectSlug templateId templateVersion inputs mcdHash
              domainProfiles uuid now))
        else (istore, Except.error GenErr.generatedInvalid))
      = (istore, Except.error (GenErr.inputValidation templateId templateVersion
          (validateSchema tmpl.inputs_schema inputs)))
    exact if_pos hne
  · exact fun f hf hc => mem_validateSchema_missing tmpl.inputs_schema inputs f hf hc
  · exact fun ft hft v hv ht => mem_validateSchema_wrongType tmpl.inputs_schema inputs ft v hft hv ht

/-- Witness for C4: inputs missing both required fields and carrying a
wrongly typed declared property; the error list contains all three
violations and the store is unchanged. -/
theorem C4_generate_rejects_invalid_inputs_witness :
    generateInstance [(("t2", 1), sampleTemplateReq)] [] "proj" "t2" 1 [("c", Json.num 1)]
        "hash" [] "u1" "ts"
      = ([], .error (.inputValidation "t2" 1
          (validateSchema sampleTemplateReq.inputs_schema [("c", Json.num 1)]))) ∧
    (∀ f ∈ sampleTemplateReq.inputs_schema.required,
      containsKey [("c", Json.num 1)] f = false →
      SchemaError.missingRequired f ∈
        validateSchema sampleTemplateReq.inputs_schema [("c", Json.num 1)]) ∧
    (∀ ft ∈ sampleTemplateReq.inputs_schema.properties, ∀ v,
      assocLookup [("c", Json.num 1)] ft.1 = some v →
      typeMatches ft.2 v = false →
      SchemaError.wrongType ft.1 ft.2 ∈
        validateSchema sampleTemplateReq.inputs_schema [("c", Json.num 1)]) :=
  C4_generate_rejects_invalid_inputs [(("t2", 1), sampleTemplateReq)] [] "proj" "t2" 1
    [("c", Json.num 1)] "hash" [] "u1" "ts" sampleTemplateReq rfl
    (Or.inl ⟨"a", by decide, by decide⟩)

/-! ## Claim theorems: plan execution -/

/-- C1: for a stored plan, `executeTask` fails with the StateError iff
the plan's status is not `pending` at load time; executing a plan that
just completed fails with the StateError carrying `completed`; and no
stored plan's status rank ever decreases across a call (in particular
nothing reverts to `pending`). -/
theorem C1_execute_state_gate (store : PlanStore) (planId : String) (plan : ExecutionPlan)
    (h : assocLookup store planId = some plan) :
    ((∃ s, (executeTask store planId).2 = .error (.state s)) ↔ plan.status ≠ .pending) ∧
    (plan.status = .pending →
      (∃ out, (executeTask store planId).2 = .ok out) ∧
      (executeTask (executeTask store planId).1 planId).2 = .error (.state .completed)) ∧
    (∀ q p₀ p₁, assocLookup store q = some p₀ →
      assocLookup (executeTask store planId).1 q = some p₁ →
      statusRank p₀.status ≤ statusRank p₁.status) := by
  by_cases hp : plan.status = .pending
  · have hrw := executeTask_some store planId plan h
    rw [if_neg (not_not_intro hp), updatePlan_updatePlan] at hrw
    refine ⟨⟨?_, fun hc => absurd hp hc⟩, fun _ => ⟨⟨_, by rw [hrw]⟩, ?_⟩, ?_⟩
    · rintro ⟨s, hs⟩
      rw [hrw] at hs
      cases hs
    · rw [hrw]
      have hfind : ∃ e, store.find? (fun e => e.1 == planId) = some e ∧ e.2 = plan := by
        unfold assocLookup at h
        cases hf : store.find? (fun e => e.1 == planId) with
        | none => rw [hf] at h; cases h
        | some e => rw [hf] at h; exact ⟨e, rfl, Option.some.inj h⟩
      obtain ⟨e, hf, -⟩ := hfind
      have hpred : (e.1 == planId) = true := by
        have h2 := List.find?_some hf
        exact h2
      have hlook : assocLookup (updatePlan store planId { plan with status := .completed }) planId
          = some { plan with status := .completed } := by
        rw [assocLookup_updatePlan, hf]
        simp only [Option.map_some']
        rw [if_pos hpred]
      rw [executeTask_some _ _ _ hlook]
      simp
    · intro q p₀ p₁ h₀ h₁
      rw [hrw] at h₁
      rw [assocLookup_updatePlan] at h₁
      unfold assocLookup at h₀
      cases hf : store.find? (fun e => e.1 == q) with
      | none => rw [hf] at h₀; cases h₀
      | some e =>
        rw [hf] at h₀ h₁
        simp only [Option.map_some'] at h₀ h₁
        have he₀ : e.2 = p₀ := Option.some.inj h₀
        by_cases hep : (e.1 == planId) = true
        · rw [if_pos hep] at h₁
          rw [← Option.some.inj h₁]
          cases hs : p₀.status <;> simp [statusRank]
        · rw [if_neg hep] at h₁
          rw [← Option.some.inj h₁, he₀]
  · have hrw := executeTask_some store planId plan h
    rw [if_pos hp] at hrw
    refine ⟨⟨fun _ => hp, fun _ => ⟨plan.status, by rw [hrw]⟩⟩,
      fun hpend => absurd hpend hp, ?_⟩
    intro q p₀ p₁ h₀ h₁
    rw [hrw] at h₁
    rw [h₀] at h₁
    rw [Option.some.inj h₁]

/-- Witness for C1: a fresh pending plan executes once, and the second
call on the same plan id fails with the StateError carrying
`completed`. -/
theorem C1_execute_state_gate_witness :
    (executeTask (executeTask [("p1", samplePlan)] "p1").1 "p1").2
      = .error (.state .completed) :=
  ((C1_execute_state_gate [("p1", samplePlan)] "p1" samplePlan rfl).2.1 rfl).2

/-! ## Claim theorems: substitution -/

/-- C7: placeholder substitution replaces each `{name}` placeholder whose
name matches an instance input (or derived variable) with that value's
rendering and leaves every unmatched placeholder verbatim rather than
failing.  First conjunct: a template string in which no variable of
`allVars inputs` occurs is returned unchanged.  Second conjunct: the
spec's scenario — step instruction `"Create {name}"` with inputs
`{name: "todo.txt"}` renders exactly `"Create todo.txt"`.  Third
conjunct: a matched and an unmatched placeholder side by side — the
matched one is replaced, the unmatched one survives verbatim. -/
theorem C7_placeholder_substitution (s : String) (inputs : List (String × Json))
    (h : (allVars inputs).all (fun kv => !occursStr ("\x7b" ++ kv.1 ++ "\x7d") s) = true) :
    substituteVariables s inputs = s ∧
    substituteVariables "Create {name}" [("name", Json.str "todo.txt")] = "Create todo.txt" ∧
    substituteVariables "Create {name} at {place}" [("name", Json.str "x")]
      = "Create x at {place}" := by
  refine ⟨substituteVariables_no_match s inputs ?_, by decide, by decide⟩
  intro kv hkv
  have hb := List.all_eq_true.mp h kv hkv
  simpa using hb

/-- Witness for C7 at a concrete template and inputs map. -/
theorem C7_placeholder_substitution_witness :
    substituteVariables "touch {file}" [("name", Json.str "x")] = "touch {file}" ∧
    substituteVariables "Create {name}" [("name", Json.str "todo.txt")] = "Create todo.txt" ∧
    substituteVariables "Create {name} at {place}" [("name", Json.str "x")]
      = "Create x at {place}" :=
  C7_placeholder_substitution "touch {file}" [("name", Json.str "x")] (by decide)

/-- C9: when the inputs contain a string `endpoint_path` with at least one
segment containing neither `:` nor `?`, the merged variable map binds
`resource` to the last such segment, and this derived binding overrides
any explicit `resource` input (the spread `{...inputs, ...derivedVars}`
puts the derived value last).  Second conjunct: concretely,
`{resource}` renders as the derived `"todos"` and not the explicit
`"explicit"`. -/
theorem C9_derived_resource_precedence (inputs : List (String × Json)) (p : String)
    (rl : List Char)
    (h1 : assocLookup inputs "endpoint_path" = some (Json.str p))
    (h2 : ((splitOnChar '/' p.data).filter
        (fun s => !s.isEmpty && !s.contains ':' && !s.contains '?')).getLast? = some rl) :
    assocLookup (allVars inputs) "resource" = some (Json.str (String.mk rl)) ∧
    substituteVariables "{resource}"
      [("endpoint_path", Json.str "/api/todos"), ("resource", Json.str "explicit")]
      = "todos" := by
  refine ⟨?_, by decide⟩
  have hd : deriveConvenienceVariables inputs = [("resource", String.mk rl)] := by
    simp only [deriveConvenienceVariables, h1]
    simp only [h2]
  rw [allVars, hd]
  exact assocLookup_spreadMerge_singleton "resource" (String.mk rl) inputs

/-- Witness for C9 at a concrete inputs map carrying both an
`endpoint_path` and an explicit `resource` key. -/
theorem C9_derived_resource_precedence_witness :
    assocLookup
        (allVars [("endpoint_path", Json.str "/api/todos"), ("resource", Json.str "explicit")])
        "resource" = some (Json.str (String.mk ['t', 'o', 'd', 'o', 's'])) ∧
    substituteVariables "{resource}"
      [("endpoint_path", Json.str "/api/todos"), ("resource", Json.str "explicit")]
      = "todos" :=
  C9_derived_resource_precedence
    [("endpoint_path", Json.str "/api/todos"), ("resource", Json.str "explicit")]
    "/api/todos" ['t', 'o', 'd', 'o', 's'] (by decide) (by decide)

/-- C10: substitution is sequential (one `replaceAll` per variable over
the intermediate string), not simultaneous.  With inputs
`{a: "{b}", b: "X"}` the template `"{a}"` renders as `"X"`: the `{b}`
introduced by `a`'s replacement value is itself replaced by the later
variable `b`.  Reversing the key enumeration order yields `"{b}"`
instead, so the output depends on key order and differs from the
simultaneous substitution of the original template (which would leave
`"{b}"`). -/
theorem C10_sequential_not_simultaneous :
    substituteVariables "{a}" [("a", Json.str "{b}"), ("b", Json.str "X")] = "X" ∧
    substituteVariables "{a}" [("b", Json.str "X"), ("a", Json.str "{b}")] = "{b}" ∧
    substituteVariables "{a}" [("a", Json.str "{b}"), ("b", Json.str "X")] ≠ "{b}" :=
  ⟨by decide, by decide, by decide⟩

end Warpos
